import Mathlib

/-!
Verification development for the Substrate-Block-STM parallel executor.

The definitions below are a shallow embedding of the Rust sources of the
`parallel-executor` crate:
  * `src/parallel-executor/src/types.rs`              — shared type aliases,
  * `src/parallel-executor/src/versioned_data.rs`     — the multi-version store,
  * `src/parallel-executor/src/captured_reads.rs`     — the per-transaction read set,
  * `src/parallel-executor/src/txn_last_input_output.rs` — the input/output ledger,
  * `src/parallel-executor/src/lib.rs`                — the batch-execute entry point.

Machine integers (`u32`) only ever get compared or incremented by one here, so
they are embedded as `Nat`.  Rust functions that can panic (`assert!`, `expect`,
`unreachable!`) are embedded as `Option`-returning functions with `none` for the
panic.  `BTreeMap<ShiftedTxnIndex, Entry>` is embedded as an association list
sorted strictly by key; `DashMap` and `HashMap` have no ordering semantics and
are embedded as a lookup function and an association list respectively.
-/

set_option autoImplicit false

namespace BlockSTM

/-- Source: types.rs — `pub type TxnIndex = u32`. -/
abbrev TxnIndex : Type := Nat

/-- Source: types.rs — `pub type Incarnation = u32`. -/
abbrev Incarnation : Type := Nat

/-- Substrate `StorageKey = Vec<u8>`; bytes are embedded as `Nat`. -/
abbrev StorageKey : Type := List Nat

/-- Substrate `StorageValue = Vec<u8>`; bytes are embedded as `Nat`. -/
abbrev StorageValue : Type := List Nat

/-- Source: types.rs — `Version = Result<(TxnIndex, Incarnation), StorageVersion>`.
`none` stands for `Err(StorageVersion)`, the pre-block base-state sentinel. -/
abbrev Version : Type := Option (TxnIndex × Incarnation)

/-- Source: mvhashmap.rs — `enum Flag { Done, Estimate }` (the copy imported by
versioned_data.rs from `crate::types` is not under src/, but this duplicate is). -/
inductive Flag where
  | Done
  | Estimate
deriving DecidableEq

/-- Modelled from the spec: `MVDataError` is imported by versioned_data.rs from
`crate::types` but its definition is missing from src/.  Its constructors are fixed
by the match arms of `VersionedValue::read`, `CapturedReads::validate_data_reads`
and `ParallelState::read_top_data_by_kind`: a `Dependency(TxnIndex)` signal, an
`Uninitialized` signal, and a `DeltaApplicationFailure`. -/
inductive MVDataError where
  | Dependency (dep_idx : TxnIndex)
  | Uninitialized
  | DeltaApplicationFailure
deriving DecidableEq

/-- Modelled from the spec: `MVDataOutput` is imported by versioned_data.rs from
`crate::types` but its definition is missing from src/.  The only constructor used
anywhere is `Versioned(Version, value)`. -/
inductive MVDataOutput where
  | Versioned (version : Version) (v : StorageValue)
deriving DecidableEq

/-- Modelled from the spec: `ShiftedTxnIndex` in src/ is only a `u32` alias, while
versioned_data.rs calls `ShiftedTxnIndex::zero()`.  Per the spec, the shifted index
of the base-state slot is 0. -/
def ShiftedTxnIndex.zero : Nat := 0

/-- Modelled from the spec: `ShiftedTxnIndex::new(txn_idx)` is `txn_idx + 1`
("internal ordering key equal to TxnIndex + 1, with 0 reserved for the base-state
slot"). -/
def ShiftedTxnIndex.new (txn_idx : TxnIndex) : Nat := txn_idx + 1

/-- Modelled from the spec: `ShiftedTxnIndex::idx()` recovers
`Result<TxnIndex, StorageVersion>`; `none` is the storage (base-state) version. -/
def ShiftedTxnIndex.idx : Nat → Option TxnIndex
  | 0 => none
  | j + 1 => some j

/-- Source: versioned_data.rs lines 20-26 — an entry is `(Incarnation, Arc<V>)`
contents together with an estimate flag. -/
structure Entry where
  cell : Incarnation × StorageValue
  flag : Flag
deriving DecidableEq

/-- Source: versioned_data.rs lines 43-45 — a fresh write entry with flag Done. -/
def Entry.new_write_from (incarnation : Incarnation) (data : StorageValue) : Entry :=
  { cell := (incarnation, data), flag := Flag.Done }

/-- Source: versioned_data.rs lines 51-53 — flip the flag to Estimate. -/
def Entry.mark_estimate (e : Entry) : Entry :=
  { e with flag := Flag.Estimate }

/-- Lookup in the `BTreeMap<ShiftedTxnIndex, Entry>` embedding (association list). -/
def vmLookup (m : List (Nat × Entry)) (k : Nat) : Option Entry :=
  (m.find? (fun p => decide (p.1 = k))).map (fun p => p.2)

/-- Ordered insert-or-replace in the `BTreeMap<ShiftedTxnIndex, Entry>` embedding;
keeps the list sorted strictly by key, as a `BTreeMap` is. -/
def vmInsert (k : Nat) (e : Entry) : List (Nat × Entry) → List (Nat × Entry)
  | [] => [(k, e)]
  | p :: rest =>
    if k < p.1 then (k, e) :: p :: rest
    else if k = p.1 then (k, e) :: rest
    else p :: vmInsert k e rest

/-- The `BTreeMap` representation invariant: keys strictly increase along the list. -/
abbrev VMSorted (m : List (Nat × Entry)) : Prop :=
  m.Pairwise (fun a b => a.1 < b.1)

/-- Source: versioned_data.rs lines 30-32 — a per-key chain of versioned entries. -/
structure VersionedValue where
  versioned_map : List (Nat × Entry)
deriving DecidableEq

/-- Source: versioned_data.rs lines 63-79, `VersionedValue::read`.  The iterator
`range(0..ShiftedTxnIndex::new(txn_idx)).next_back()` inspects the entry with the
greatest shifted index `< txn_idx + 1`; the surrounding while-loop returns on its
first iteration in every branch.  `none` embeds the
`expect("May not depend on storage version")` panic (an Estimate flag on the
base-state slot). -/
def VersionedValue.read (vv : VersionedValue) (txn_idx : TxnIndex) :
    Option (Except MVDataError MVDataOutput) :=
  match (vv.versioned_map.filter (fun p => decide (p.1 < ShiftedTxnIndex.new txn_idx))).getLast? with
  | none => some (Except.error MVDataError.Uninitialized)
  | some (s, entry) =>
    if entry.flag = Flag.Estimate then
      match ShiftedTxnIndex.idx s with
      | none => none
      | some j => some (Except.error (MVDataError.Dependency j))
    else
      some (Except.ok (MVDataOutput.Versioned
        ((ShiftedTxnIndex.idx s).map (fun j => (j, entry.cell.1))) entry.cell.2))

/-- Source: versioned_data.rs lines 35-37 — `DashMap<K, VersionedValue>`; the
concurrent hash map is embedded as a lookup function (it is only ever used through
point lookups and point updates). -/
structure VersionedData where
  values : StorageKey → Option VersionedValue

/-- The chain stored for `key`, with `entry(key).or_default()` semantics: an absent
key denotes the empty chain. -/
def VersionedData.chainOf (d : VersionedData) (key : StorageKey) : List (Nat × Entry) :=
  ((d.values key).getD { versioned_map := [] }).versioned_map

/-- Source: versioned_data.rs lines 108-114, `VersionedData::fetch_data`. -/
def VersionedData.fetch_data (d : VersionedData) (key : StorageKey) (txn_idx : TxnIndex) :
    Option (Except MVDataError MVDataOutput) :=
  match d.values key with
  | some v => v.read txn_idx
  | none => some (Except.error MVDataError.Uninitialized)

/-- Source: versioned_data.rs lines 116-124, `VersionedData::provide_base_value`.
Inserts the base-state entry (shifted index 0, incarnation 0, flag Done); the
trailing `assert!` (prev incarnation 0 and unchanged byte length) is embedded as
`none` on failure.  Note the map is updated before the assert fires, but a Rust
panic aborts the batch, so the post-panic map is unobservable. -/
def VersionedData.provide_base_value (d : VersionedData) (key : StorageKey)
    (data : StorageValue) : Option VersionedData :=
  let vv := (d.values key).getD { versioned_map := [] }
  let bytes_len := data.length
  let prev_entry := vmLookup vv.versioned_map ShiftedTxnIndex.zero
  let vv1 : VersionedValue :=
    { versioned_map := vmInsert ShiftedTxnIndex.zero (Entry.new_write_from 0 data) vv.versioned_map }
  let d1 : VersionedData := { values := fun k => if k = key then some vv1 else d.values k }
  match prev_entry with
  | none => some d1
  | some entry =>
    if entry.cell.1 = 0 ∧ entry.cell.2.length = bytes_len then some d1 else none

/-- Source: versioned_data.rs lines 126-135, `VersionedData::write`.  Inserts or
replaces the entry at `(key, ShiftedTxnIndex::new(txn_idx))`; the trailing
`assert!(prev.incarnation < incarnation)` is embedded as `none` on failure. -/
def VersionedData.write (d : VersionedData) (key : StorageKey) (txn_idx : TxnIndex)
    (incarnation : Incarnation) (data : StorageValue) : Option VersionedData :=
  let vv := (d.values key).getD { versioned_map := [] }
  let prev_entry := vmLookup vv.versioned_map (ShiftedTxnIndex.new txn_idx)
  let vv1 : VersionedValue :=
    { versioned_map :=
        vmInsert (ShiftedTxnIndex.new txn_idx) (Entry.new_write_from incarnation data)
          vv.versioned_map }
  let d1 : VersionedData := { values := fun k => if k = key then some vv1 else d.values k }
  match prev_entry with
  | none => some d1
  | some entry => if entry.cell.1 < incarnation then some d1 else none

/-- A sequence of `write` calls to the same `(key, txn_idx)`, all of which must
succeed; used to state the monotonic-incarnation property. -/
def writeSeq (d : VersionedData) (key : StorageKey) (txn_idx : TxnIndex) :
    List (Incarnation × StorageValue) → Option VersionedData
  | [] => some d
  | (i, v) :: rest =>
    match d.write key txn_idx i v with
    | some d1 => writeSeq d1 key txn_idx rest
    | none => none

/-- Source: captured_reads.rs lines 19-25 — `enum ReadKind { Exists, Value }`; the
declaration order defines the relation Exists < Value (derived Ord). -/
inductive ReadKind where
  | Exists
  | Value
deriving DecidableEq

/-- Rank realizing the derived total order on `ReadKind` (declaration order). -/
def ReadKind.rank : ReadKind → Nat
  | ReadKind.Exists => 0
  | ReadKind.Value => 1

/-- Source: captured_reads.rs lines 32-44 — `enum DataRead<V>` at `V = StorageValue`. -/
inductive DataRead where
  | Versioned (version : Version) (v : StorageValue)
  | Exists (b : Bool)
deriving DecidableEq

/-- Source: captured_reads.rs lines 60-70, `DataRead::get_kind`. -/
def DataRead.get_kind : DataRead → ReadKind
  | DataRead.Versioned _ _ => ReadKind.Value
  | DataRead.Exists _ => ReadKind.Exists

/-- Source: the `#[derivative(PartialEq)]` instance on `DataRead`: the value
argument of `Versioned` is ignored (`PartialEq = "ignore"`), so two `Versioned`
reads compare equal exactly when their versions do. -/
def DataRead.peq : DataRead → DataRead → Bool
  | DataRead.Versioned v1 _, DataRead.Versioned v2 _ => decide (v1 = v2)
  | DataRead.Exists b1, DataRead.Exists b2 => b1 == b2
  | _, _ => false

/-- Source: captured_reads.rs lines 47-58 — `enum DataReadComparison`. -/
inductive DataReadComparison where
  | Contains
  | Inconsistent
  | Insufficient
deriving DecidableEq

/-- Source: captured_reads.rs lines 95-105, `DataRead::downcast`.  The inner
`unreachable!` arm is embedded as `none`; with the two-element kind order the only
strictly-downward pair is `Versioned` to `Exists`, which yields `Exists(true)`. -/
def DataRead.downcast (r : DataRead) (kind : ReadKind) : Option DataRead :=
  if r.get_kind = kind then some r
  else if kind.rank < r.get_kind.rank then
    match r, kind with
    | DataRead.Versioned _ _, ReadKind.Exists => some (DataRead.Exists true)
    | _, _ => none
  else none

/-- Source: captured_reads.rs lines 75-91, `DataRead::contains`.  The
`expect("Downcast to lower kind must succeed")` can only fire when
`downcast` returns `none` with a strictly greater kind, which cannot happen;
that branch is embedded as comparing against `false`. -/
def DataRead.contains (self other : DataRead) : DataReadComparison :=
  let self_kind := self.get_kind
  let other_kind := other.get_kind
  if self_kind.rank < other_kind.rank then DataReadComparison.Insufficient
  else
    let downcast_eq :=
      if self_kind = other_kind then self.peq other
      else
        match self.downcast other_kind with
        | some d => d.peq other
        | none => false
    if downcast_eq then DataReadComparison.Contains else DataReadComparison.Inconsistent

/-- Lookup in the `HashMap<StorageKey, DataRead>` embedding (association list). -/
def alLookup {α : Type} (m : List (StorageKey × α)) (k : StorageKey) : Option α :=
  (m.find? (fun p => decide (p.1 = k))).map (fun p => p.2)

/-- Insert-or-replace in the `HashMap<StorageKey, DataRead>` embedding. -/
def alInsert {α : Type} (m : List (StorageKey × α)) (k : StorageKey) (v : α) :
    List (StorageKey × α) :=
  match m with
  | [] => [(k, v)]
  | p :: rest => if p.1 = k then (k, v) :: rest else p :: alInsert rest k v

/-- Source: captured_reads.rs lines 115-129 — the per-transaction read set with its
two failure flags. -/
structure CapturedReads where
  data_reads : List (StorageKey × DataRead)
  speculative_failure : Bool
  incorrect_use : Bool
deriving DecidableEq

/-- Source: captured_reads.rs lines 131-137 — `enum UpdateResult` (the message
strings are dropped). -/
inductive UpdateResult where
  | Inserted
  | Updated
  | IncorrectUse
  | Inconsistency
deriving DecidableEq

/-- Source: captured_reads.rs lines 142-172, `CapturedReads::update_entry`.  The
Rust function mutates the hash-map entry in place; here the second component of
the result is the read that ends up stored at the key.  The `unreachable!` arm for
`Insufficient` with a strictly greater kind is embedded as `none`. -/
def update_entry (prev : Option DataRead) (read : DataRead) :
    Option (UpdateResult × DataRead) :=
  match prev with
  | none => some (UpdateResult.Inserted, read)
  | some existing_read =>
    if read.get_kind.rank ≤ existing_read.get_kind.rank then
      some (UpdateResult.IncorrectUse, existing_read)
    else
      match read.contains existing_read with
      | DataReadComparison.Contains => some (UpdateResult.Updated, read)
      | DataReadComparison.Inconsistent => some (UpdateResult.Inconsistency, existing_read)
      | DataReadComparison.Insufficient => none

/-- Outcome of `capture_read`: `Ok(())`, or `bail!` after setting `incorrect_use`,
or `bail!` after setting `speculative_failure`. -/
inductive CaptureOutcome where
  | ok
  | errIncorrectUse
  | errInconsistency
deriving DecidableEq

/-- Source: captured_reads.rs lines 176-191, `CapturedReads::capture_read`.
Returns the outcome together with the updated read set; `none` embeds the
`unreachable!` panic inside `update_entry`. -/
def CapturedReads.capture_read (cr : CapturedReads) (state_key : StorageKey)
    (read : DataRead) : Option (CaptureOutcome × CapturedReads) :=
  match update_entry (alLookup cr.data_reads state_key) read with
  | none => none
  | some (UpdateResult.Inserted, stored) =>
    some (CaptureOutcome.ok, { cr with data_reads := alInsert cr.data_reads state_key stored })
  | some (UpdateResult.Updated, stored) =>
    some (CaptureOutcome.ok, { cr with data_reads := alInsert cr.data_reads state_key stored })
  | some (UpdateResult.IncorrectUse, _) =>
    some (CaptureOutcome.errIncorrectUse, { cr with incorrect_use := true })
  | some (UpdateResult.Inconsistency, _) =>
    some (CaptureOutcome.errInconsistency, { cr with speculative_failure := true })

/-- Source: captured_reads.rs lines 194-196, `CapturedReads::get_by_kind`. -/
def CapturedReads.get_by_kind (cr : CapturedReads) (state_key : StorageKey)
    (kind : ReadKind) : Option DataRead :=
  (alLookup cr.data_reads state_key).bind (fun r => r.downcast kind)

/-- Source: captured_reads.rs lines 209-219 — the `iter().all` body of
`validate_data_reads`, with Rust's short-circuiting `all` as structural recursion.
An outer `none` propagates a panic inside `fetch_data`. -/
def validateList (store : VersionedData) (idx : TxnIndex) :
    List (StorageKey × DataRead) → Option Bool
  | [] => some true
  | (k, r) :: rest =>
    match store.fetch_data k idx with
    | none => none
    | some (Except.ok (MVDataOutput.Versioned version v)) =>
      match (DataRead.Versioned version v).contains r with
      | DataReadComparison.Contains => validateList store idx rest
      | _ => some false
    | some (Except.error _) => some false

/-- Source: captured_reads.rs lines 198-220, `CapturedReads::validate_data_reads`. -/
def CapturedReads.validate_data_reads (cr : CapturedReads) (store : VersionedData)
    (idx_to_validate : TxnIndex) : Option Bool :=
  if cr.speculative_failure then some false
  else validateList store idx_to_validate cr.data_reads

/-- Source: captured_reads.rs lines 222-224, `CapturedReads::mark_failure`. -/
def CapturedReads.mark_failure (cr : CapturedReads) : CapturedReads :=
  { cr with speculative_failure := true }

/-- Spec-side predicate for the validation-soundness claim: the captured read
still matches a fresh fetch from the store at the validated index; a
`Dependency` or `Uninitialized` fetch outcome (or a fetch panic) counts as a
mismatch. -/
def readStillMatches (store : VersionedData) (idx : TxnIndex)
    (p : StorageKey × DataRead) : Bool :=
  match store.fetch_data p.1 idx with
  | some (Except.ok (MVDataOutput.Versioned version v)) =>
    match (DataRead.Versioned version v).contains p.2 with
    | DataReadComparison.Contains => true
    | _ => false
  | _ => false

/-- Source: txn_last_input_output.rs lines 22-27 — a transaction output is its
intended write set. -/
structure TransactionOutput where
  write_set : List (StorageKey × StorageValue)
deriving DecidableEq

/-- Modelled from the spec: `ExecutionStatus` is imported by
txn_last_input_output.rs from `crate::types` but its definition is missing from
src/.  Per the spec and every match site: tagged Success(write-set),
SkipRest(write-set), Abort. -/
inductive ExecutionStatus where
  | Success (t : TransactionOutput)
  | SkipRest (t : TransactionOutput)
  | Abort
deriving DecidableEq

/-- Source: txn_last_input_output.rs lines 29-42 — `TxnOutput`. -/
structure TxnOutput where
  output_status : ExecutionStatus
deriving DecidableEq

/-- An occupied output slot: the `Arc<TxnOutput>` held by the `ArcSwapOption`,
together with the number of outstanding references to it held elsewhere
(`Arc::try_unwrap` succeeds exactly when this count is zero). -/
structure OutputSlot where
  txn_output : TxnOutput
  otherRefs : Nat
deriving DecidableEq

/-- Source: txn_last_input_output.rs lines 44-50 — the fixed-size ledger; the
`ArcSwapOption` vectors are embedded as lists of optional slots. -/
structure TxnLastInputOutput where
  inputs : List (Option CapturedReads)
  outputs : List (Option OutputSlot)
  module_read_write_intersection : Bool

/-- Source: txn_last_input_output.rs lines 110-112, `txn_output` (a plain load of
the slot).  The outer `none` is an out-of-bounds index panic. -/
def TxnLastInputOutput.txn_output (t : TxnLastInputOutput) (txn_idx : TxnIndex) :
    Option (Option TxnOutput) :=
  (t.outputs[txn_idx]?).map (fun slot => slot.map (fun s => s.txn_output))

/-- Source: txn_last_input_output.rs lines 125-132, `take_output`.  `swap(None)`
removes the slot; the `expect` on a never-recorded output and the failed
`Arc::try_unwrap` (another reference outstanding) are both panics, embedded as
`none`. -/
def TxnLastInputOutput.take_output (t : TxnLastInputOutput) (txn_idx : TxnIndex) :
    Option (ExecutionStatus × TxnLastInputOutput) :=
  match t.outputs[txn_idx]? with
  | none => none
  | some none => none
  | some (some slot) =>
    if slot.otherRefs = 0 then
      some (slot.txn_output.output_status,
        { t with outputs := t.outputs.set txn_idx none })
    else none

/-- Source: txn_last_input_output.rs lines 101-108, `update_to_skip_rest`: consume
the output through `take_output`, then store `SkipRest` with the same write set;
any non-`Success` status hits `unreachable!` (embedded as `none`), and a
`take_output` panic propagates. -/
def TxnLastInputOutput.update_to_skip_rest (t : TxnLastInputOutput) (txn_idx : TxnIndex) :
    Option TxnLastInputOutput :=
  match t.take_output txn_idx with
  | none => none
  | some (ExecutionStatus.Success output, t1) =>
    some { t1 with
      outputs := t1.outputs.set txn_idx
        (some { txn_output := { output_status := ExecutionStatus.SkipRest output }, otherRefs := 0 }) }
  | some (ExecutionStatus.SkipRest _, _) => none
  | some (ExecutionStatus.Abort, _) => none

/-- Source: lib.rs lines 77-95, `ParallelLocalCallExecutor::apply_extrinsics_parallel`.
The function decodes `call_data` into a batch of extrinsics, then returns
`Ok(Vec::new())` without executing anything and without touching `changes`.
The SCALE decode step and the overlay are abstracted as parameters: `decoded` is
the decode result, `changes` the overlay state threaded through unchanged. -/
def apply_extrinsics_parallel {Extrinsic State : Type}
    (decoded : Except String (List Extrinsic)) (changes : State) :
    Except String (List Nat × State) :=
  match decoded with
  | Except.error e => Except.error e
  | Except.ok _batch => Except.ok ([], changes)

/-- Modelled from the spec: a transaction for the purpose of strict sequential
execution — the engine's per-transaction effect is its write set ("ExecutionStatus
... write-set: mapping Key → value, representing every key a transaction intends
to write").  The execution engine itself is an external collaborator. -/
structure SeqTxn where
  write_set : List (StorageKey × StorageValue)

/-- Modelled from the spec: applying one transaction's write set to a key-value
state, later writes shadowing earlier ones. -/
def applyWriteSet (st : StorageKey → Option StorageValue) :
    List (StorageKey × StorageValue) → (StorageKey → Option StorageValue)
  | [] => st
  | (k, v) :: rest => applyWriteSet (fun q => if q = k then some v else st q) rest

/-- Modelled from the spec: strict sequential execution of the batch in order
("strict sequential execution of the same sequence in the same order"), yielding
the final key-to-value state. -/
def seqExecute (st : StorageKey → Option StorageValue) (txns : List SeqTxn) :
    StorageKey → Option StorageValue :=
  txns.foldl (fun s t => applyWriteSet s t.write_set) st

/-- The empty overlay / pre-batch state used for concrete evaluations. -/
def emptyState : StorageKey → Option StorageValue := fun _ => none

/-! Helper lemmas about the ordered-map embedding. -/

theorem mem_of_getLast? {α : Type} {l : List α} {a : α} (h : l.getLast? = some a) : a ∈ l := by
  induction l with
  | nil => simp at h
  | cons x xs ih =>
    cases xs with
    | nil =>
      simp only [List.getLast?_singleton, Option.some.injEq] at h
      simp [h]
    | cons y ys =>
      rw [List.getLast?_cons_cons] at h
      exact List.mem_cons_of_mem _ (ih h)

theorem getLast?_ne_none {α : Type} {x : α} {xs : List α} : (x :: xs).getLast? ≠ none := by
  induction xs generalizing x with
  | nil => simp
  | cons y ys ih => rw [List.getLast?_cons_cons]; exact ih

theorem getLast?_eq_of_max {m : List (Nat × Entry)} (hs : VMSorted m) {s : Nat} {e : Entry}
    (hmem : (s, e) ∈ m) (hmax : ∀ q ∈ m, q.1 ≤ s) : m.getLast? = some (s, e) := by
  induction m with
  | nil => cases hmem
  | cons p rest ih =>
    cases rest with
    | nil =>
      have h := List.mem_singleton.mp hmem
      simp [h]
    | cons q rest2 =>
      rw [List.getLast?_cons_cons]
      rcases List.mem_cons.mp hmem with h | h
      · exfalso
        have hpq : p.1 < q.1 := (List.pairwise_cons.mp hs).1 q (List.mem_cons_self _ _)
        have hqs : q.1 ≤ s := hmax q (List.mem_cons_of_mem _ (List.mem_cons_self _ _))
        have hp1 : p.1 = s := by rw [← h]
        omega
      · exact ih (List.pairwise_cons.mp hs).2 h
          (fun r hr => hmax r (List.mem_cons_of_mem _ hr))

theorem filter_getLast?_eq {m : List (Nat × Entry)} (hs : VMSorted m) {b s : Nat} {e : Entry}
    (hmem : (s, e) ∈ m) (hsb : s < b)
    (hmax : ∀ s2 e2, (s2, e2) ∈ m → s2 < b → s2 ≤ s) :
    (m.filter (fun p => decide (p.1 < b))).getLast? = some (s, e) := by
  apply getLast?_eq_of_max
  · exact hs.filter _
  · exact List.mem_filter.mpr ⟨hmem, by simpa using hsb⟩
  · intro q hq
    rcases List.mem_filter.mp hq with ⟨hq1, hq2⟩
    exact hmax q.1 q.2 hq1 (by simpa using hq2)

/-! Characterization of `VersionedValue::read` and `VersionedData::fetch_data`. -/

theorem fetch_data_eq_read (d : VersionedData) (key : StorageKey) (txn_idx : TxnIndex) :
    d.fetch_data key txn_idx = VersionedValue.read { versioned_map := d.chainOf key } txn_idx := by
  unfold VersionedData.fetch_data VersionedData.chainOf
  cases d.values key with
  | none => rfl
  | some vv => rfl

theorem read_done_of_max {m : List (Nat × Entry)} (hs : VMSorted m) {txn_idx s : Nat} {e : Entry}
    (hmem : (s, e) ∈ m) (hle : s ≤ txn_idx)
    (hmax : ∀ s2 e2, (s2, e2) ∈ m → s2 ≤ txn_idx → s2 ≤ s)
    (hflag : e.flag = Flag.Done) :
    VersionedValue.read { versioned_map := m } txn_idx =
      some (Except.ok (MVDataOutput.Versioned
        ((ShiftedTxnIndex.idx s).map (fun j => (j, e.cell.1))) e.cell.2)) := by
  have hl := filter_getLast?_eq hs hmem
    (show s < ShiftedTxnIndex.new txn_idx by simp [ShiftedTxnIndex.new]; omega)
    (fun s2 e2 h2 hb => hmax s2 e2 h2 (by simp [ShiftedTxnIndex.new] at hb; omega))
  unfold VersionedValue.read
  rw [hl]
  simp [hflag]

theorem read_estimate_of_max {m : List (Nat × Entry)} (hs : VMSorted m)
    {txn_idx j : Nat} {e : Entry}
    (hmem : (ShiftedTxnIndex.new j, e) ∈ m) (hle : ShiftedTxnIndex.new j ≤ txn_idx)
    (hmax : ∀ s2 e2, (s2, e2) ∈ m → s2 ≤ txn_idx → s2 ≤ ShiftedTxnIndex.new j)
    (hflag : e.flag = Flag.Estimate) :
    VersionedValue.read { versioned_map := m } txn_idx =
      some (Except.error (MVDataError.Dependency j)) := by
  have hl := filter_getLast?_eq hs hmem
    (show ShiftedTxnIndex.new j < ShiftedTxnIndex.new txn_idx by
      simp [ShiftedTxnIndex.new] at hle ⊢; omega)
    (fun s2 e2 h2 hb => hmax s2 e2 h2 (by simp [ShiftedTxnIndex.new] at hb ⊢; omega))
  unfold VersionedValue.read
  rw [hl]
  simp [hflag, ShiftedTxnIndex.new, ShiftedTxnIndex.idx]

theorem read_uninit_iff {m : List (Nat × Entry)} {txn_idx : Nat} :
    VersionedValue.read { versioned_map := m } txn_idx =
        some (Except.error MVDataError.Uninitialized) ↔
      ∀ s e, (s, e) ∈ m → txn_idx < s := by
  constructor
  · intro h s e hmem
    unfold VersionedValue.read at h
    cases hl : (m.filter (fun p => decide (p.1 < ShiftedTxnIndex.new txn_idx))).getLast? with
    | none =>
      by_contra hlt
      push_neg at hlt
      have hmf : (s, e) ∈ m.filter (fun p => decide (p.1 < ShiftedTxnIndex.new txn_idx)) :=
        List.mem_filter.mpr ⟨hmem, by simp [ShiftedTxnIndex.new]; omega⟩
      cases hfe : m.filter (fun p => decide (p.1 < ShiftedTxnIndex.new txn_idx)) with
      | nil => rw [hfe] at hmf; cases hmf
      | cons a l => rw [hfe] at hl; exact absurd hl getLast?_ne_none
    | some p =>
      exfalso
      rw [hl] at h
      rcases p with ⟨s2, e2⟩
      by_cases hf : e2.flag = Flag.Estimate
      · cases s2 with
        | zero => simp [hf, ShiftedTxnIndex.idx] at h
        | succ j => simp [hf, ShiftedTxnIndex.idx] at h
      · simp [hf] at h
  · intro hall
    have hnil : m.filter (fun p => decide (p.1 < ShiftedTxnIndex.new txn_idx)) = [] := by
      rw [List.filter_eq_nil_iff]
      intro p hp
      have := hall p.1 p.2 hp
      simp [ShiftedTxnIndex.new]
      omega
    unfold VersionedValue.read
    rw [hnil]
    rfl

theorem read_ok_inv {m : List (Nat × Entry)} {txn_idx : Nat} {ver : Version}
    {val : StorageValue}
    (h : VersionedValue.read { versioned_map := m } txn_idx =
      some (Except.ok (MVDataOutput.Versioned ver val))) :
    ∃ s e, (s, e) ∈ m ∧ s ≤ txn_idx ∧ e.flag = Flag.Done ∧ val = e.cell.2 ∧
      ver = (ShiftedTxnIndex.idx s).map (fun j => (j, e.cell.1)) := by
  unfold VersionedValue.read at h
  cases hl : (m.filter (fun p => decide (p.1 < ShiftedTxnIndex.new txn_idx))).getLast? with
  | none => rw [hl] at h; simp at h
  | some p =>
    rw [hl] at h
    rcases p with ⟨s, e⟩
    have hmf := mem_of_getLast? hl
    rcases List.mem_filter.mp hmf with ⟨hmem, hb⟩
    have hle : s ≤ txn_idx := by simp [ShiftedTxnIndex.new] at hb; omega
    by_cases hf : e.flag = Flag.Estimate
    · cases s with
      | zero => simp [hf, ShiftedTxnIndex.idx] at h
      | succ j => simp [hf, ShiftedTxnIndex.idx] at h
    · refine ⟨s, e, hmem, hle, ?_, ?_, ?_⟩
      · cases hfl : e.flag with
        | Done => rfl
        | Estimate => exact absurd hfl hf
      · simp [hf] at h
        exact h.2.symm
      · simp [hf] at h
        exact h.1.symm

/-- C2: for every key and txn_idx, `fetch` returns `Versioned(version, value)` from
the maximal chain entry with shifted index at or below `txn_idx` when its flag is
Done; returns `Dependency(j)` identifying that entry's writing transaction `j` when
its flag is Estimate; returns `Uninitialized` exactly when no chain entry exists
at or below `txn_idx`; and a `Versioned` result always originates from a
Done-flagged entry, never from an Estimate-flagged one. -/
theorem c2_fetch_data_characterization (d : VersionedData) (key : StorageKey)
    (txn_idx : TxnIndex) (hs : VMSorted (d.chainOf key)) :
    (∀ s e, (s, e) ∈ d.chainOf key → s ≤ txn_idx →
       (∀ s2 e2, (s2, e2) ∈ d.chainOf key → s2 ≤ txn_idx → s2 ≤ s) →
       (e.flag = Flag.Done →
         d.fetch_data key txn_idx = some (Except.ok (MVDataOutput.Versioned
           ((ShiftedTxnIndex.idx s).map (fun j => (j, e.cell.1))) e.cell.2))) ∧
       (∀ j, s = ShiftedTxnIndex.new j → e.flag = Flag.Estimate →
         d.fetch_data key txn_idx = some (Except.error (MVDataError.Dependency j)))) ∧
    (d.fetch_data key txn_idx = some (Except.error MVDataError.Uninitialized) ↔
       ∀ s e, (s, e) ∈ d.chainOf key → txn_idx < s) ∧
    (∀ ver val, d.fetch_data key txn_idx = some (Except.ok (MVDataOutput.Versioned ver val)) →
       ∃ s e, (s, e) ∈ d.chainOf key ∧ s ≤ txn_idx ∧ e.flag = Flag.Done ∧ val = e.cell.2 ∧
         ver = (ShiftedTxnIndex.idx s).map (fun j => (j, e.cell.1))) := by
  rw [fetch_data_eq_read]
  refine ⟨?_, read_uninit_iff, fun ver val h => read_ok_inv h⟩
  intro s e hmem hle hmax
  constructor
  · intro hflag
    exact read_done_of_max hs hmem hle hmax hflag
  · intro j hj hflag
    subst hj
    exact read_estimate_of_max hs hmem hle hmax hflag

/-- Store used to witness C2: key `[1]` carries the base entry and an
Estimate-flagged entry written by transaction 1 (shifted index 2). -/
def dW2 : VersionedData :=
  { values := fun k =>
      if k = [1] then
        some { versioned_map :=
          [(0, Entry.new_write_from 0 [7]),
           (2, { cell := (0, [9]), flag := Flag.Estimate })] }
      else none }

theorem c2_witness :
    dW2.fetch_data [1] 2 = some (Except.error (MVDataError.Dependency 1)) := by
  have h := c2_fetch_data_characterization dW2 [1] 2 (by decide)
  refine (h.1 2 { cell := (0, [9]), flag := Flag.Estimate } (by decide) (by decide) ?_).2 1 rfl rfl
  intro s2 e2 hmem hle
  have : (s2, e2) = (0, Entry.new_write_from 0 [7]) ∨
      (s2, e2) = (2, ({ cell := (0, [9]), flag := Flag.Estimate } : Entry)) := by
    simpa [dW2, VersionedData.chainOf] using hmem
  rcases this with h2 | h2 <;> · rw [Prod.mk.injEq] at h2; omega

/-! Lemmas for the write path of `VersionedData`. -/

theorem vmLookup_cons_ne {p : Nat × Entry} {rest : List (Nat × Entry)} {k : Nat}
    (h : ¬ p.1 = k) : vmLookup (p :: rest) k = vmLookup rest k := by
  simp [vmLookup, List.find?_cons, h]

theorem vmLookup_vmInsert_self (k : Nat) (e : Entry) (m : List (Nat × Entry)) :
    vmLookup (vmInsert k e m) k = some e := by
  induction m with
  | nil => simp [vmInsert, vmLookup]
  | cons p rest ih =>
    unfold vmInsert
    by_cases h1 : k < p.1
    · simp [h1, vmLookup]
    · by_cases h2 : k = p.1
      · simp [h1, h2, vmLookup]
      · have hne : ¬ p.1 = k := fun hh => h2 hh.symm
        simp only [if_neg h1, if_neg h2]
        rw [vmLookup_cons_ne hne]
        exact ih

theorem write_none_iff (d : VersionedData) (key : StorageKey) (txn_idx : TxnIndex)
    (inc : Incarnation) (data : StorageValue) :
    d.write key txn_idx inc data = none ↔
      ∃ e, vmLookup (d.chainOf key) (ShiftedTxnIndex.new txn_idx) = some e ∧
        inc ≤ e.cell.1 := by
  unfold VersionedData.write VersionedData.chainOf
  cases hprev : vmLookup ((d.values key).getD { versioned_map := [] }).versioned_map
      (ShiftedTxnIndex.new txn_idx) with
  | none => simp [hprev]
  | some entry =>
    simp only [hprev]
    by_cases hi : entry.cell.1 < inc
    · simp [hi]
    · simp [hi]
      exact Nat.le_of_not_lt hi

theorem write_lookup_self (d d2 : VersionedData) (key : StorageKey) (txn_idx : TxnIndex)
    (inc : Incarnation) (data : StorageValue)
    (h : d.write key txn_idx inc data = some d2) :
    vmLookup (d2.chainOf key) (ShiftedTxnIndex.new txn_idx) =
      some (Entry.new_write_from inc data) := by
  unfold VersionedData.write at h
  have hd2 : d2.values key = some { versioned_map := vmInsert (ShiftedTxnIndex.new txn_idx) (Entry.new_write_from inc data) ((d.values key).getD { versioned_map := [] }).versioned_map } := by
    cases hprev : vmLookup ((d.values key).getD { versioned_map := [] }).versioned_map
        (ShiftedTxnIndex.new txn_idx) with
    | none =>
      simp only [hprev] at h
      rcases Option.some.inj h with rfl
      simp
    | some entry =>
      simp only [hprev] at h
      by_cases hi : entry.cell.1 < inc
      · rw [if_pos hi] at h
        rcases Option.some.inj h with rfl
        simp
      · rw [if_neg hi] at h
        cases h
  unfold VersionedData.chainOf
  rw [hd2]
  exact vmLookup_vmInsert_self _ _ _

theorem writeSeq_chain (key : StorageKey) (txn_idx : TxnIndex) :
    ∀ (ws : List (Incarnation × StorageValue)) (d d2 : VersionedData),
      writeSeq d key txn_idx ws = some d2 → (ws.map Prod.fst).Chain' (· < ·) := by
  intro ws
  induction ws with
  | nil => intro d d2 _; simp
  | cons iv rest ih =>
    intro d d2 h
    rcases iv with ⟨i, v⟩
    unfold writeSeq at h
    cases hw : d.write key txn_idx i v with
    | none => rw [hw] at h; cases h
    | some d1 =>
      rw [hw] at h
      have hrest := ih d1 d2 h
      cases rest with
      | nil => simp
      | cons iv2 rest2 =>
        rcases iv2 with ⟨i2, v2⟩
        rw [List.map_cons, List.map_cons, List.chain'_cons]
        refine ⟨?_, by simpa using hrest⟩
        unfold writeSeq at h
        cases hw2 : d1.write key txn_idx i2 v2 with
        | none => rw [hw2] at h; cases h
        | some d1b =>
          have hlk := write_lookup_self d d1 key txn_idx i v hw
          by_contra hnot
          push_neg at hnot
          have : d1.write key txn_idx i2 v2 = none :=
            (write_none_iff d1 key txn_idx i2 v2).mpr
              ⟨Entry.new_write_from i v, hlk, by simpa [Entry.new_write_from] using hnot⟩
          rw [this] at hw2
          cases hw2

/-- C3: `write(key, txn_idx, incarnation, value)` fails fatally exactly when an
existing entry at the same `(key, txn_idx)` has incarnation at or above the new
one; a successful write installs the new entry at `(key, txn_idx)`; and along any
sequence of successful writes to the same `(key, txn_idx)` the recorded
incarnation numbers strictly increase. -/
theorem c3_write_incarnation_monotone :
    (∀ d key txn_idx inc data, VersionedData.write d key txn_idx inc data = none ↔
       ∃ e, vmLookup (VersionedData.chainOf d key) (ShiftedTxnIndex.new txn_idx) = some e ∧
         inc ≤ e.cell.1) ∧
    (∀ d d2 key txn_idx inc data, VersionedData.write d key txn_idx inc data = some d2 →
       vmLookup (VersionedData.chainOf d2 key) (ShiftedTxnIndex.new txn_idx) =
         some (Entry.new_write_from inc data)) ∧
    (∀ key txn_idx ws d d2, writeSeq d key txn_idx ws = some d2 →
       (ws.map Prod.fst).Chain' (· < ·)) :=
  ⟨write_none_iff,
   fun d d2 key txn_idx inc data h => write_lookup_self d d2 key txn_idx inc data h,
   fun key txn_idx ws d d2 h => writeSeq_chain key txn_idx ws d d2 h⟩

/-- Store used to witness C3: key `[1]` already carries an entry for transaction 0
with incarnation 5, so a new write with equal incarnation 5 must fail. -/
def dW3 : VersionedData :=
  { values := fun k =>
      if k = [1] then some { versioned_map := [(1, Entry.new_write_from 5 [9])] }
      else none }

theorem c3_witness : VersionedData.write dW3 [1] 0 5 [7] = none :=
  (c3_write_incarnation_monotone.1 dW3 [1] 0 5 [7]).mpr
    ⟨Entry.new_write_from 5 [9], by decide, by decide⟩

/-- C7: on a key the store has not touched yet, `provide_base_value(k, v)` followed
by `fetch(k, idx)` with no intervening writes to `k` returns
`Versioned(BaseState, v)`, for every idx > 0. -/
theorem c7_provide_then_fetch (d d2 : VersionedData) (k : StorageKey) (v : StorageValue)
    (idx : TxnIndex) (hfresh : d.values k = none) (hidx : 0 < idx)
    (hp : d.provide_base_value k v = some d2) :
    d2.fetch_data k idx = some (Except.ok (MVDataOutput.Versioned none v)) := by
  have hd2 : d2.values k = some { versioned_map := [(0, Entry.new_write_from 0 v)] } := by
    unfold VersionedData.provide_base_value at hp
    simp only [hfresh] at hp
    have hnone : vmLookup (VersionedValue.versioned_map { versioned_map := [] })
        ShiftedTxnIndex.zero = none := by rfl
    rw [Option.getD_none] at hp
    rw [hnone] at hp
    rcases Option.some.inj hp with rfl
    simp [vmInsert, ShiftedTxnIndex.zero]
  have hchain : d2.chainOf k = [(0, Entry.new_write_from 0 v)] := by
    unfold VersionedData.chainOf
    rw [hd2]
    rfl
  rw [fetch_data_eq_read, hchain]
  have h := @read_done_of_max [(0, Entry.new_write_from 0 v)] (by simp) idx 0
    (Entry.new_write_from 0 v) (by simp) (Nat.zero_le idx)
    (by intro s2 e2 hm hle; simp at hm; omega) rfl
  simpa [ShiftedTxnIndex.idx, Entry.new_write_from] using h

/-- Concrete store pair used to witness C7. -/
def dW7pre : VersionedData := { values := fun _ => none }

/-- The store produced by `provide_base_value` on `dW7pre` at key `[1]` with
value `[7]`. -/
def dW7post : VersionedData :=
  { values := fun q =>
      if q = [1] then some { versioned_map := [(0, Entry.new_write_from 0 [7])] }
      else dW7pre.values q }

theorem c7_witness :
    dW7post.fetch_data [1] 1 = some (Except.ok (MVDataOutput.Versioned none [7])) :=
  c7_provide_then_fetch dW7pre dW7post [1] [7] 1 rfl (by decide) rfl

/-! Claims about `CapturedReads`. -/

/-- C5: within one execution attempt, a `capture_read` whose kind is at or below
the already-captured kind for that key fails with the `incorrect_use` flag set
(and the `speculative_failure` flag untouched); the outcome is the
programming-contract-violation error, not the speculative one. -/
theorem c5_capture_read_rejects_low_kind (cr : CapturedReads) (key : StorageKey)
    (read ex : DataRead) (hex : alLookup cr.data_reads key = some ex)
    (hk : read.get_kind.rank ≤ ex.get_kind.rank) :
    cr.capture_read key read =
      some (CaptureOutcome.errIncorrectUse, { cr with incorrect_use := true }) := by
  unfold CapturedReads.capture_read update_entry
  rw [hex]
  simp [hk]

/-- Read set used to witness C5, C6 and C9: key `[1]` carries an existence read. -/
def crW : CapturedReads :=
  { data_reads := [([1], DataRead.Exists true)],
    speculative_failure := false, incorrect_use := false }

theorem c5_witness :
    crW.capture_read [1] (DataRead.Exists false) =
      some (CaptureOutcome.errIncorrectUse, { crW with incorrect_use := true }) :=
  c5_capture_read_rejects_low_kind crW [1] (DataRead.Exists false) (DataRead.Exists true)
    rfl (by decide)

/-- C6: when the new read has strictly higher kind than the captured one, the
captured read is replaced by the new read if the new read downcast to the old
kind equals the old read (derived equality, which on `Versioned` compares
versions only); otherwise `capture_read` fails with `speculative_failure` set
(and `incorrect_use` untouched). -/
theorem c6_capture_read_upgrade (cr : CapturedReads) (key : StorageKey)
    (read ex down : DataRead)
    (hex : alLookup cr.data_reads key = some ex)
    (hk : ex.get_kind.rank < read.get_kind.rank)
    (hdown : read.downcast ex.get_kind = some down) :
    (down.peq ex = true →
      cr.capture_read key read =
        some (CaptureOutcome.ok, { cr with data_reads := alInsert cr.data_reads key read })) ∧
    (down.peq ex = false →
      cr.capture_read key read =
        some (CaptureOutcome.errInconsistency, { cr with speculative_failure := true })) := by
  have hkind_ne : ¬ read.get_kind = ex.get_kind := by
    intro hh
    rw [hh] at hk
    omega
  have h1 : ¬ read.get_kind.rank < ex.get_kind.rank := by omega
  have hcon : read.contains ex =
      (if down.peq ex = true then DataReadComparison.Contains
       else DataReadComparison.Inconsistent) := by
    unfold DataRead.contains
    rw [if_neg h1, if_neg hkind_ne, hdown]
  have h2 : ¬ read.get_kind.rank ≤ ex.get_kind.rank := by omega
  constructor
  · intro hpeq
    have hupd : update_entry (some ex) read = some (UpdateResult.Updated, read) := by
      simp only [update_entry]
      rw [if_neg h2, hcon, if_pos hpeq]
    unfold CapturedReads.capture_read
    rw [hex, hupd]
  · intro hpeq
    have hupd : update_entry (some ex) read = some (UpdateResult.Inconsistency, ex) := by
      simp only [update_entry]
      rw [if_neg h2, hcon, if_neg (by simp [hpeq])]
    unfold CapturedReads.capture_read
    rw [hex, hupd]

theorem c6_witness :
    crW.capture_read [1] (DataRead.Versioned none [5]) =
      some (CaptureOutcome.ok,
        { crW with data_reads := alInsert crW.data_reads [1] (DataRead.Versioned none [5]) }) :=
  (c6_capture_read_upgrade crW [1] (DataRead.Versioned none [5]) (DataRead.Exists true)
    (DataRead.Exists true) rfl (by decide) rfl).1 rfl

/-- C9: a failing `capture_read` — of either failure kind — leaves the read map
untouched and only sets the corresponding flag, so the previously captured read
is still served (downcast) by `get_by_kind`. -/
theorem c9_capture_read_error_preserves (cr : CapturedReads) (key : StorageKey)
    (read : DataRead) (res : CaptureOutcome) (cr2 : CapturedReads)
    (h : cr.capture_read key read = some (res, cr2))
    (hne : res ≠ CaptureOutcome.ok) :
    cr2.data_reads = cr.data_reads ∧
    (res = CaptureOutcome.errIncorrectUse → cr2 = { cr with incorrect_use := true }) ∧
    (res = CaptureOutcome.errInconsistency → cr2 = { cr with speculative_failure := true }) ∧
    ∃ ex, alLookup cr.data_reads key = some ex ∧
      ∀ kind, cr2.get_by_kind key kind = ex.downcast kind := by
  unfold CapturedReads.capture_read at h
  cases hprev : alLookup cr.data_reads key with
  | none =>
    rw [hprev] at h
    simp only [update_entry] at h
    simp at h
    exact absurd h.1.symm hne
  | some ex =>
    rw [hprev] at h
    simp only [update_entry] at h
    by_cases hk : read.get_kind.rank ≤ ex.get_kind.rank
    · rw [if_pos hk] at h
      simp at h
      rcases h with ⟨hres, hcr⟩
      refine ⟨by rw [← hcr], fun _ => hcr.symm, ?_, ex, rfl, ?_⟩
      · intro habs
        rw [← hres] at habs
        cases habs
      · intro kind
        rw [← hcr]
        simp [CapturedReads.get_by_kind, hprev]
    · rw [if_neg hk] at h
      cases hcon : read.contains ex with
      | Contains =>
        rw [hcon] at h
        simp at h
        exact absurd h.1.symm hne
      | Inconsistent =>
        rw [hcon] at h
        simp at h
        rcases h with ⟨hres, hcr⟩
        refine ⟨by rw [← hcr], ?_, fun _ => hcr.symm, ex, rfl, ?_⟩
        · intro habs
          rw [← hres] at habs
          cases habs
        · intro kind
          rw [← hcr]
          simp [CapturedReads.get_by_kind, hprev]
      | Insufficient =>
        rw [hcon] at h
        cases h

theorem c9_witness :
    ({ crW with incorrect_use := true } : CapturedReads).data_reads = crW.data_reads ∧
    (CaptureOutcome.errIncorrectUse = CaptureOutcome.errIncorrectUse →
      ({ crW with incorrect_use := true } : CapturedReads) = { crW with incorrect_use := true }) ∧
    (CaptureOutcome.errIncorrectUse = CaptureOutcome.errInconsistency →
      ({ crW with incorrect_use := true } : CapturedReads) = { crW with speculative_failure := true }) ∧
    ∃ ex, alLookup crW.data_reads [1] = some ex ∧
      ∀ kind, ({ crW with incorrect_use := true } : CapturedReads).get_by_kind [1] kind =
        ex.downcast kind :=
  c9_capture_read_error_preserves crW [1] (DataRead.Exists false)
    CaptureOutcome.errIncorrectUse { crW with incorrect_use := true } rfl (by decide)

/-! Claim C4 about `validate_data_reads`. -/

theorem validateList_eq_all (store : VersionedData) (idx : TxnIndex) :
    ∀ (l : List (StorageKey × DataRead)) (b : Bool),
      validateList store idx l = some b → b = l.all (readStillMatches store idx) := by
  intro l
  induction l with
  | nil =>
    intro b h
    unfold validateList at h
    simp at h
    simp [h.symm]
  | cons p rest ih =>
    intro b h
    rcases p with ⟨k, r⟩
    unfold validateList at h
    split at h
    · cases h
    · rename_i version v heq
      split at h
      · rename_i hcon
        have hb := ih b h
        have hm : readStillMatches store idx (k, r) = true := by
          simp [readStillMatches, heq, hcon]
        simp [List.all_cons, hm, hb]
      · rename_i hcon
        have hm : readStillMatches store idx (k, r) = false := by
          cases hc2 : (DataRead.Versioned version v).contains r with
          | Contains => exact absurd hc2 hcon
          | Inconsistent => simp [readStillMatches, heq, hc2]
          | Insufficient => simp [readStillMatches, heq, hc2]
        simp at h
        simp [List.all_cons, hm, h.symm]
    · rename_i e heq
      have hm : readStillMatches store idx (k, r) = false := by
        simp [readStillMatches, heq]
      simp at h
      simp [List.all_cons, hm, h.symm]

/-- C4 (amended): if `speculative_failure` is already set, `validate_data_reads`
returns false regardless of the captured reads; otherwise it returns false iff at
least one captured read no longer matches a fresh fetch from the store (a
`Dependency` or `Uninitialized` fetch outcome counting as a mismatch), and true
iff all captured reads still match — stated as: any returned boolean equals the
conjunction of the per-read match checks. -/
theorem c4_validate_soundness (cr : CapturedReads) (store : VersionedData)
    (idx : TxnIndex) :
    (cr.speculative_failure = true → cr.validate_data_reads store idx = some false) ∧
    (∀ b, cr.speculative_failure = false → cr.validate_data_reads store idx = some b →
       b = cr.data_reads.all (readStillMatches store idx)) := by
  constructor
  · intro hsf
    unfold CapturedReads.validate_data_reads
    simp [hsf]
  · intro b hsf h
    unfold CapturedReads.validate_data_reads at h
    rw [if_neg (by simp [hsf])] at h
    exact validateList_eq_all store idx cr.data_reads b h

/-- Read set used for the C4 counterexample: no captured reads at all, but the
`speculative_failure` flag is set (reachable through `mark_failure`). -/
def crW4 : CapturedReads :=
  { data_reads := [], speculative_failure := true, incorrect_use := false }

/-- Store with a single base entry for key `[1]`, used for C4. -/
def storeW4 : VersionedData :=
  { values := fun k =>
      if k = [1] then some { versioned_map := [(0, Entry.new_write_from 0 [7])] }
      else none }

/-- C4 counterexample: `validate` returns false although every captured read
(vacuously) still matches a fresh fetch, refuting "returns true iff all captured
reads still match" as stated — the `speculative_failure` short-circuit decides
the result without consulting the reads. -/
theorem c4_counterexample :
    crW4.validate_data_reads storeW4 0 = some false ∧
    crW4.data_reads.all (readStillMatches storeW4 0) = true :=
  ⟨rfl, rfl⟩

/-- Read set used to witness the amended C4: one versioned read that matches. -/
def crW4b : CapturedReads :=
  { data_reads := [([1], DataRead.Versioned none [7])],
    speculative_failure := false, incorrect_use := false }

theorem c4_witness :
    (true : Bool) = crW4b.data_reads.all (readStillMatches storeW4 1) :=
  (c4_validate_soundness crW4b storeW4 1).2 true rfl rfl

/-! Claims about `TxnLastInputOutput`. -/

theorem lt_length_of_getElem?_eq_some {α : Type} :
    ∀ (l : List α) (i : Nat) (a : α), l[i]? = some a → i < l.length
  | [], i, a, h => by simp at h
  | x :: xs, 0, a, h => by simp
  | x :: xs, i + 1, a, h => by
    have := lt_length_of_getElem?_eq_some xs i a (by simpa using h)
    simpa using this

theorem getElem?_set_self {α : Type} :
    ∀ (l : List α) (i : Nat) (a : α), i < l.length → (l.set i a)[i]? = some a
  | [], i, a, h => by simp at h
  | x :: xs, 0, a, h => by simp
  | x :: xs, i + 1, a, h => by
    simpa using getElem?_set_self xs i a (by simpa using h)

theorem take_output_some_inv (t : TxnLastInputOutput) (idx : TxnIndex)
    (st : ExecutionStatus) (t2 : TxnLastInputOutput)
    (h : t.take_output idx = some (st, t2)) :
    ∃ slot, t.outputs[idx]? = some (some slot) ∧ slot.otherRefs = 0 ∧
      st = slot.txn_output.output_status ∧
      t2 = { t with outputs := t.outputs.set idx none } := by
  unfold TxnLastInputOutput.take_output at h
  split at h
  · cases h
  · cases h
  · rename_i slot heq
    split at h
    · rename_i hz
      simp at h
      exact ⟨slot, heq, hz, h.1.symm, h.2.symm⟩
    · cases h

theorem take_output_none_unrecorded (t : TxnLastInputOutput) (idx : TxnIndex)
    (h : t.outputs[idx]? = some none) : t.take_output idx = none := by
  simp [TxnLastInputOutput.take_output, h]

theorem take_output_none_refs (t : TxnLastInputOutput) (idx : TxnIndex) (slot : OutputSlot)
    (h : t.outputs[idx]? = some (some slot)) (hr : slot.otherRefs ≠ 0) :
    t.take_output idx = none := by
  simp [TxnLastInputOutput.take_output, h, hr]

/-- C8: `take_output(idx)` succeeds only on a recorded output whose snapshot has no
other outstanding reference; on success it removes the slot and returns the
recorded status, so a subsequent `txn_output(idx)` finds no output; it fails
fatally when no output was ever recorded at `idx` or when another reference to
the snapshot is outstanding. -/
theorem c8_take_output_spec (t : TxnLastInputOutput) (idx : TxnIndex) :
    (∀ st t2, t.take_output idx = some (st, t2) →
       (∃ slot, t.outputs[idx]? = some (some slot) ∧ slot.otherRefs = 0 ∧
          st = slot.txn_output.output_status) ∧
       t2.txn_output idx = some none) ∧
    (t.outputs[idx]? = some none → t.take_output idx = none) ∧
    (∀ slot, t.outputs[idx]? = some (some slot) → slot.otherRefs ≠ 0 →
       t.take_output idx = none) := by
  refine ⟨?_, take_output_none_unrecorded t idx, take_output_none_refs t idx⟩
  intro st t2 h
  rcases take_output_some_inv t idx st t2 h with ⟨slot, heq, hz, hst, ht2⟩
  refine ⟨⟨slot, heq, hz, hst⟩, ?_⟩
  rw [ht2]
  unfold TxnLastInputOutput.txn_output
  have hlen := lt_length_of_getElem?_eq_some _ _ _ heq
  simp [getElem?_set_self _ _ _ hlen]

/-- Ledger used to witness C8: the single recorded output still has an outstanding
reference, so `take_output` must fail. -/
def tW8 : TxnLastInputOutput :=
  { inputs := [none],
    outputs := [some { txn_output := { output_status := ExecutionStatus.Abort },
                       otherRefs := 1 }],
    module_read_write_intersection := false }

theorem c8_witness : tW8.take_output 0 = none :=
  (c8_take_output_spec tW8 0).2.2
    { txn_output := { output_status := ExecutionStatus.Abort }, otherRefs := 1 }
    rfl (by decide)

/-- C10: `update_to_skip_rest(idx)` succeeds exactly on a recorded, uniquely owned
`Success` output, replacing it by `SkipRest` with the same write set; it fails
fatally when the output was never recorded, when another reference to the
snapshot is outstanding (it consumes the output through `take_output`), or when
the current output is not `Success`. -/
theorem c10_update_to_skip_rest_spec (t : TxnLastInputOutput) (idx : TxnIndex) :
    (∀ t2, t.update_to_skip_rest idx = some t2 →
       ∃ slot out, t.outputs[idx]? = some (some slot) ∧ slot.otherRefs = 0 ∧
         slot.txn_output.output_status = ExecutionStatus.Success out ∧
         t2 = { t with outputs := t.outputs.set idx (some { txn_output := { output_status := ExecutionStatus.SkipRest out }, otherRefs := 0 }) }) ∧
    (t.outputs[idx]? = some none → t.update_to_skip_rest idx = none) ∧
    (∀ slot, t.outputs[idx]? = some (some slot) → slot.otherRefs ≠ 0 →
       t.update_to_skip_rest idx = none) ∧
    (∀ slot, t.outputs[idx]? = some (some slot) →
       (∀ out, slot.txn_output.output_status ≠ ExecutionStatus.Success out) →
       t.update_to_skip_rest idx = none) := by
  refine ⟨?_, ?_, ?_, ?_⟩
  · intro t2 h
    unfold TxnLastInputOutput.update_to_skip_rest at h
    split at h
    · cases h
    · rename_i out t1 heq
      rcases take_output_some_inv t idx (ExecutionStatus.Success out) t1 heq with
        ⟨slot, hslot, hz, hst, ht1⟩
      refine ⟨slot, out, hslot, hz, hst.symm, ?_⟩
      rcases Option.some.inj h with rfl
      rw [ht1]
      simp [List.set_set]
    · cases h
    · cases h
  · intro hnone
    unfold TxnLastInputOutput.update_to_skip_rest
    rw [take_output_none_unrecorded t idx hnone]
  · intro slot hslot hr
    unfold TxnLastInputOutput.update_to_skip_rest
    rw [take_output_none_refs t idx slot hslot hr]
  · intro slot hslot hns
    by_cases hr : slot.otherRefs = 0
    · have htake : t.take_output idx =
          some (slot.txn_output.output_status, { t with outputs := t.outputs.set idx none }) := by
        simp [TxnLastInputOutput.take_output, hslot, hr]
      unfold TxnLastInputOutput.update_to_skip_rest
      rw [htake]
      cases hst : slot.txn_output.output_status with
      | Success out => exact absurd hst (hns out)
      | SkipRest o => rfl
      | Abort => rfl
    · unfold TxnLastInputOutput.update_to_skip_rest
      rw [take_output_none_refs t idx slot hslot hr]

/-- Ledger used to witness C10: the recorded output is `Abort`, not `Success`, so
`update_to_skip_rest` must fail even though the snapshot is uniquely owned. -/
def tW10 : TxnLastInputOutput :=
  { inputs := [none],
    outputs := [some { txn_output := { output_status := ExecutionStatus.Abort },
                       otherRefs := 0 }],
    module_read_write_intersection := false }

theorem c10_witness : tW10.update_to_skip_rest 0 = none :=
  (c10_update_to_skip_rest_spec tW10 0).2.2.2
    { txn_output := { output_status := ExecutionStatus.Abort }, otherRefs := 0 }
    rfl (fun out h => by cases h)

/-! Claim C1 about the batch-execute entry point. -/

/-- Batch used for C1: a single transaction that writes key `[1]` to value `[2]`. -/
def txnC1 : SeqTxn := { write_set := [([1], [2])] }

/-- C1 evidence: the batch-execute entry point `apply_extrinsics_parallel` returns
an empty result and leaves the overlay state untouched for every successfully
decoded batch, while strict sequential execution of the one-transaction batch
writes key `[1]` to `[2]` — so the entry point does not produce the sequential
final state or the per-transaction outputs.  (The crate's `pub mod scheduler` has
no source file, and the function body decodes the batch and returns
`Ok(Vec::new())`.) -/
theorem c1_entry_point_not_equivalent :
    apply_extrinsics_parallel (Except.ok [txnC1]) emptyState =
      Except.ok ([], emptyState) ∧
    seqExecute emptyState [txnC1] [1] = some [2] ∧
    emptyState [1] = none :=
  ⟨rfl, rfl, rfl⟩

end BlockSTM
